import Mathlib

/-!
Shallow embedding of the ai-news-digest pipeline (src/src/...) in Lean 4.

Conventions of the embedding:
* Timestamps are modelled as `Int` seconds since an arbitrary epoch
  (`datetime` values in the code; `timedelta(hours=h)` is `h * 3600`).
* The SQL store is a Lean list of rows; the `unique=True` constraint on
  `Content.source_url` (src/storage/models.py) is enforced by the commit
  model, which fails with an integrity error exactly when a flushed batch
  of inserts contains a `source_url` already present in the table or
  duplicated inside the batch (the sessionmaker in src/storage/database.py
  is configured with `autoflush=False`, so pre-insert existence queries see
  only committed rows, never rows pending in the session).
* Columns that store JSON text (`categories`, `entities`,
  `investment_signals`) are modelled at the level the code reads them back:
  `_parse_json` (src/digest/generator.py) maps a NULL or unparseable value
  to the default, so the model stores the parsed value as an `Option`,
  `none` covering NULL/unparseable.
* External collaborators (the LLM provider, `json.loads`) are parameters:
  the provider response is an `Option String` (`none` = the call raised)
  and the JSON decoder is an arbitrary function `String → Option EnrichResult`.
-/

/-- JSON-ish values, for the `entities` map stored on a content row. -/
inductive JVal where
  | str : String → JVal
  | num : Int → JVal
  | bool : Bool → JVal
  | null : JVal

/-- The `ContentType` enum from src/storage/models.py. -/
inductive ContentType where
  | article
  | podcast
  | video
deriving DecidableEq

/-- The seven `Category` enum values (src/storage/models.py), as the strings
they serialize to (the enum derives `str`, so comparisons in the digest code
are plain string comparisons). -/
def categoryStrings : List String :=
  ["funding", "product_launch", "m_and_a", "regulatory", "talent", "technical", "trend"]

/-- The parsed form of the `investment_signals` JSON column: the
`relevance_score` key when present. -/
structure Signals where
  relevanceScore : Option Int

/-- A row of the `content` table (src/storage/models.py, class `Content`).
`created_at` / `updated_at` server-side timestamp columns are omitted: no
claim mentions them. -/
structure Content where
  id : Nat
  source_name : String
  source_url : String
  content_type : ContentType
  title : String
  author : Option String
  publish_date : Int
  raw_content : Option String
  transcript : Option String
  summary : Option String
  categories : Option (List String)
  entities : Option (List (String × JVal))
  investmentSignals : Option Signals
  duration_seconds : Option Int
  processed : Bool
  included_in_digest : Bool

/-- Model of `_parse_json(item.investment_signals).get("relevance_score", 0)`
(src/digest/generator.py): NULL or unparseable JSON gives the default `{}`,
and a missing key gives 0. -/
def relevanceOf (c : Content) : Int :=
  match c.investmentSignals with
  | none => 0
  | some s => s.relevanceScore.getD 0

/-- Model of `set(_parse_json(item.categories, []))` read as a list of strings
(membership is all the digest code uses of the set). -/
def parsedCats (c : Content) : List String :=
  c.categories.getD []

/-- An enclosure or link element of a feed entry (`type` and `href` keys). -/
structure LinkE where
  type : String
  href : String

/-- A feed entry as `collect_from_feed` consumes it
(src/collectors/rss_collector.py).  `publishDate` stands for the value
`parse_publish_date` resolves for the entry (the feedparser date structs are
external), `body` for the value `extract_content` resolves. -/
structure Entry where
  link : String
  title : Option String
  author : Option String
  publishDate : Int
  body : Option String
  enclosures : List LinkE
  links : List LinkE

/-- Python `"needle" in haystack`: substring test. -/
def containsSub (hay pat : String) : Bool :=
  hay.toList.tails.any (fun t => pat.toList.isPrefixOf t)

/-- Python `s.startswith(pre)` / feedparser's `.startswith("audio/")`. -/
def strStartsWith (s pre : String) : Bool :=
  pre.toList.isPrefixOf s.toList

/-- Python `s.lower()` (the keyword matching only involves ASCII). -/
def strToLower (s : String) : String :=
  ⟨s.toList.map Char.toLower⟩

/-- Model of `RSSCollector.determine_content_type` (src/collectors/rss_collector.py
lines 25-33): podcast-name keyword match on the lowercased feed title, then a
scan of the entry's `links` for an `audio/`-typed link (the `enclosures` key
only feeds the outer truthiness test, it is never scanned for audio types). -/
def determineContentType (entry : Entry) (feedTitle : String) : ContentType :=
  let feedLower := strToLower feedTitle
  if containsSub feedLower "podcast" || containsSub feedLower "20vc" ||
      containsSub feedLower "a16z" then
    ContentType.podcast
  else if !entry.enclosures.isEmpty || !entry.links.isEmpty then
    match entry.links.find? (fun l => strStartsWith l.type "audio/") with
    | some _ => ContentType.podcast
    | none => ContentType.article
  else
    ContentType.article

/-- Model of `RSSCollector.get_audio_url`: first `audio/`-typed enclosure's href, else
first `audio/`-typed link's href. -/
def getAudioUrl (entry : Entry) : Option String :=
  match entry.enclosures.find? (fun e => strStartsWith e.type "audio/") with
  | some e => some e.href
  | none =>
    match entry.links.find? (fun l => strStartsWith l.type "audio/") with
    | some l => some l.href
    | none => none

/-- Model of `YouTubeCollector.parse_duration` (src/collectors/youtube_collector.py
lines 73-82): `re.match` of `PT(?:(\d+)H)?(?:(\d+)M)?(?:(\d+)S)?`.  Each
optional group matches exactly when the remaining input starts with a digit
run followed by the group's letter (a digit run can never absorb the letter,
so regex backtracking adds nothing); `match` only anchors at the start, so a
string not beginning with `PT` yields no match and the code returns 0. -/
def digitsToNat (ds : List Char) : Nat :=
  ds.foldl (fun n c => n * 10 + (c.toNat - '0'.toNat)) 0

/-- One optional `(\d+)X` component: parse a digit run; keep it only if the
next character is the component letter, else consume nothing. -/
def component (letter : Char) (cs : List Char) : Nat × List Char :=
  let ds := cs.takeWhile Char.isDigit
  let rest := cs.dropWhile Char.isDigit
  match ds, rest with
  | [], _ => (0, cs)
  | _, c :: rest' => if c = letter then (digitsToNat ds, rest') else (0, cs)
  | _, [] => (0, cs)

def parseDuration (s : String) : Nat :=
  match s.toList with
  | 'P' :: 'T' :: rest =>
    let hr := component 'H' rest
    let mn := component 'M' hr.2
    let sc := component 'S' mn.2
    hr.1 * 3600 + mn.1 * 60 + sc.1
  | _ => 0

/-- Integrity errors raised by the store on constraint violation
(sqlalchemy `IntegrityError` for the `unique=True` column). -/
inductive DBError where
  | integrity
deriving DecidableEq

/-- Assign autoincrement ids to a batch of freshly flushed rows. -/
def assignIds (store pending : List Content) : List Content :=
  pending.enum.map (fun p => { p.2 with id := store.length + 1 + p.1 })

/-- Model of `session.commit()` for a session holding `pending` inserted rows over the
committed table `store`: the unique index on `source_url` rejects the flush
exactly when a pending row's URL is already in the table or occurs twice in
the batch. -/
def commitInsert (store pending : List Content) : Except DBError (List Content) :=
  if pending.any (fun p => store.any (fun c => c.source_url == p.source_url)) then
    .error .integrity
  else if (pending.map (fun p => p.source_url)).Nodup then
    .ok (store ++ assignIds store pending)
  else
    .error .integrity

/-- The `Content(...)` row `collect_from_feed` builds for one feed entry. -/
def entryToContent (feedName feedTitle : String) (e : Entry) : Content :=
  let ctype := determineContentType e feedTitle
  { id := 0
    source_name := feedName
    source_url := e.link
    content_type := ctype
    title := e.title.getD "Untitled"
    author := e.author
    publish_date := e.publishDate
    raw_content := e.body
    transcript := none
    summary := none
    categories := none
    entities :=
      if ctype = ContentType.podcast then
        match getAudioUrl e with
        | some u => some [("audio_url", JVal.str u)]
        | none => none
      else none
    investmentSignals := none
    duration_seconds := none
    processed := false
    included_in_digest := false }

/-- The session-pending rows accumulated by the entry loop of
`collect_from_feed`: entries with an empty link are skipped, entries whose
URL is already in the committed store are skipped (the pre-check query; with
`autoflush=False` it does not see rows pending in the session), all others
are added. -/
def feedPending (feedName feedTitle : String) (entries : List Entry)
    (store : List Content) : List Content :=
  entries.foldl
    (fun acc e =>
      if e.link = "" then acc
      else if store.any (fun c => c.source_url == e.link) then acc
      else acc ++ [entryToContent feedName feedTitle e])
    []

/-- Model of `RSSCollector.collect_from_feed` (src/collectors/rss_collector.py lines
60-111): build the pending rows, then `session.commit()`.  No handler
catches an integrity error from the commit, so a uniqueness violation
propagates out of the function as the error value. -/
def collectFromFeed (feedName feedTitle : String) (entries : List Entry)
    (store : List Content) : Except DBError (List Content × List Content) :=
  let pending := feedPending feedName feedTitle entries store
  match commitInsert store pending with
  | .ok store' => .ok (store', pending)
  | .error e => .error e

/-! ## Enricher (src/processors/summarizer.py) -/

/-- The value a well-shaped provider response decodes to: the keys
`process_content` reads off the parsed JSON (`result.get(...)`), each
optional because `get` supplies a default. -/
structure EnrichResult where
  summary : Option (String ⊕ List String)
  categories : Option (List String)
  entities : Option (List (String × JVal))
  keyTimestamps : Option JVal
  contentTypeTag : Option JVal
  investmentSignals : Option Signals

/-- Model of `re.search(r"\{.*\}", text, re.DOTALL)`: the leftmost match starts at
the first opening brace that is followed by a closing brace, and the greedy
`.*` extends it to the last closing brace of the whole string; the match is
that slice, `none` when no such pair exists. -/
def bracketExtract (s : String) : Option String :=
  let cs := s.toList
  match cs.findIdx? (fun c => c = '\x7b') with
  | none => none
  | some i =>
    let lastClose := cs.length - 1 - (cs.reverse.findIdx? (fun c => c = '\x7d')).getD cs.length
    if i < lastClose ∧ lastClose < cs.length then
      some ⟨(cs.drop i).take (lastClose + 1 - i)⟩
    else none

/-- Model of `ContentSummarizer.summarize` (lines 146-179), with the provider call
abstracted to its outcome `resp` (`none` = the call raised, caught by the
outer handler) and `json.loads`-plus-shape-reading abstracted to `decode`.
Direct decode first; on failure, decode of the bracket-extracted slice; a
failure of either secondary step yields `none` (the code logs and returns
`None`, or the raised decode error is caught by the outer handler). -/
def summarizeModel (decode : String → Option EnrichResult)
    (resp : Option String) : Option EnrichResult :=
  match resp with
  | none => none
  | some text =>
    match decode text with
    | some r => some r
    | none =>
      match bracketExtract text with
      | some sub => decode sub
      | none => none

/-- Python `"\n".join(f"• {item}" for item in summary)` when the summary is a list,
the string itself otherwise, `""` when the key is missing. -/
def summaryText (s : Option (String ⊕ List String)) : String :=
  match s with
  | none => ""
  | some (.inl str) => str
  | some (.inr items) => String.intercalate "\n" (items.map (fun i => "• " ++ i))

/-- Python `dict.update`: keys of `old` keep their values unless `new`
rebinds them; keys only in `new` are appended. -/
def dictUpdate (old new : List (String × JVal)) : List (String × JVal) :=
  old.map (fun kv =>
      match new.find? (fun kv' => kv'.1 == kv.1) with
      | some kv' => (kv.1, kv'.2)
      | none => kv)
    ++ new.filter (fun kv' => !old.any (fun kv => kv.1 == kv'.1))

/-- Python truthiness of a JSON value (`if result.get("key_timestamps"):`). -/
def jTruthy : Option JVal → Bool
  | none => false
  | some (.str s) => !(s == "")
  | some (.num n) => !(n == 0)
  | some (.bool b) => b
  | some .null => false

/-- The single read-modify-write `process_content` performs on the stored row
(lines 193-215): summary, categories, merged entities, investment signals and
the `processed` flag, all assigned before the one `session.commit()`. -/
def applyEnrichment (c : Content) (r : EnrichResult) : Content :=
  let existingEntities := c.entities.getD []
  let merged := dictUpdate existingEntities (r.entities.getD [])
  let merged :=
    if jTruthy r.keyTimestamps then
      dictUpdate merged [("key_timestamps", r.keyTimestamps.getD .null)]
    else merged
  let merged :=
    if jTruthy r.contentTypeTag then
      dictUpdate merged [("video_type", r.contentTypeTag.getD .null)]
    else merged
  { c with
    summary := some (summaryText r.summary)
    categories := some (r.categories.getD [])
    entities := some merged
    investmentSignals := some (r.investmentSignals.getD ⟨none⟩)
    processed := true }

/-- Model of `ContentSummarizer.process_content` (lines 181-219) over the content
table, returning the success flag, the final table, and the list of
committed table states (one per `session.commit()` executed).  A summarize
failure returns before any session is opened; a missing row returns with no
commit; otherwise the enrichment fields and the `processed` flag are written
together and committed once. -/
def processContent (decode : String → Option EnrichResult) (resp : Option String)
    (db : List Content) (cid : Nat) : Bool × List Content × List (List Content) :=
  match summarizeModel decode resp with
  | none => (false, db, [])
  | some r =>
    match db.find? (fun c => c.id == cid) with
    | none => (false, db, [])
    | some _ =>
      let db' := db.map (fun c => if c.id == cid then applyEnrichment c r else c)
      (true, db', [db'])

/-! ## Digest assembler (src/digest/generator.py) -/

/-- Stable insertion of `x` into a list sorted descending by `key`: `x` goes
in front of the first element whose key is `≤ key x` (so among equal keys,
elements inserted later — i.e. appearing earlier in the original list —
come first, matching the stability of Python's `list.sort(reverse=True)`
and of a SQL `ORDER BY ... DESC` read in insertion order). -/
def insertDescBy (key : α → Int) (x : α) : List α → List α
  | [] => [x]
  | y :: ys => if key y ≤ key x then x :: y :: ys else y :: insertDescBy key x ys

/-- Stable descending sort by `key`. -/
def sortDescBy (key : α → Int) : List α → List α
  | [] => []
  | x :: xs => insertDescBy key x (sortDescBy key xs)

/-- Model of `DigestGenerator.get_recent_content` (lines 32-44): all rows with
`publish_date >= now - hours` and `processed == True`, ordered by
`publish_date` descending.  The query has no upper bound on `publish_date`. -/
def getRecentContent (now : Int) (hours : Nat) (store : List Content) : List Content :=
  sortDescBy (fun c => c.publish_date)
    (store.filter (fun c => decide (now - hours * 3600 ≤ c.publish_date) && c.processed))

/-- Model of `DigestGenerator.get_top_signal` (lines 46-57): keep `(score, item)`
pairs with score ≥ 7 in list order, stable-sort descending by score, return
the head's item. -/
def getTopSignal (l : List Content) : Option Content :=
  let scored := l.filterMap (fun c =>
    let s := relevanceOf c
    if 7 ≤ s then some (s, c) else none)
  match sortDescBy (fun p => p.1) scored with
  | [] => none
  | p :: _ => some p.2

/-- The four digest sections. -/
structure Sections where
  investment_signals : List Content
  market_intelligence : List Content
  technical : List Content
  deep_dives : List Content

def invCats : List String := ["funding", "product_launch", "m_and_a"]
def mktCats : List String := ["trend", "regulatory", "talent"]
def techCats : List String := ["technical"]

/-- Test that `categories & some_category_set` is non-empty. -/
def catHit (c : Content) (cats : List String) : Bool :=
  (parsedCats c).any (fun s => cats.contains s)

/-- One iteration of the bucketing loop in `categorize_content` (lines
71-85): an `if/elif/elif` chain over the first three buckets, then an
independent check for `deep_dives`. -/
def categorizeStep (acc : Sections) (c : Content) : Sections :=
  let acc1 :=
    if catHit c invCats || decide (8 ≤ relevanceOf c) then
      { acc with investment_signals := acc.investment_signals ++ [c] }
    else if catHit c mktCats then
      { acc with market_intelligence := acc.market_intelligence ++ [c] }
    else if catHit c techCats then
      { acc with technical := acc.technical ++ [c] }
    else acc
  if (c.content_type = ContentType.podcast || c.content_type = ContentType.video)
      && decide (6 ≤ relevanceOf c) then
    { acc1 with deep_dives := acc1.deep_dives ++ [c] }
  else acc1

/-- Model of `DigestGenerator.categorize_content` (lines 59-93): the loop, then the
per-section caps 10 / 8 / 5 / 3. -/
def categorizeContent (l : List Content) : Sections :=
  let r := l.foldl categorizeStep ⟨[], [], [], []⟩
  { investment_signals := r.investment_signals.take 10
    market_intelligence := r.market_intelligence.take 8
    technical := r.technical.take 5
    deep_dives := r.deep_dives.take 3 }

/-- The data `generate_digest` (lines 121-146) assembles. -/
structure DigestData where
  date : Int
  articles : Nat
  podcasts : Nat
  videos : Nat
  total : Nat
  topSignal : Option Content
  sections : Sections

def generateDigest (now : Int) (contents : List Content) : DigestData :=
  let contentList := getRecentContent now 24 contents
  { date := now
    articles := contentList.countP (fun c => c.content_type = ContentType.article)
    podcasts := contentList.countP (fun c => c.content_type = ContentType.podcast)
    videos := contentList.countP (fun c => c.content_type = ContentType.video)
    total := contentList.length
    topSignal := getTopSignal contentList
    sections := categorizeContent contentList }

/-- A row of the `digests` table; `html_content` (an opaque rendered string)
is omitted, the `top_signal` snapshot keeps the denormalized id/title/summary
triple the code serializes. -/
structure DigestRow where
  date : Int
  content_ids : List Nat
  top_signal : Option (Nat × String × Option String)
  sent : Bool

/-- The database state shared by the digest writer: the `content` table and
the `digests` table. -/
structure DB where
  contents : List Content
  digests : List DigestRow

/-- Model of `DigestGenerator.create_and_save_digest` (lines 155-189), returning the
final state and the list of committed states in order.  The code executes
`session.commit()` twice: first after adding the digest row, then again
after flipping `included_in_digest` on every included item — so the
intermediate state (digest persisted, flags untouched) is itself a committed,
observable database state. -/
def createAndSaveDigest (now : Int) (db : DB) : DB × List DB :=
  let dd := generateDigest now db.contents
  let contentIds :=
    (dd.sections.investment_signals ++ dd.sections.market_intelligence ++
      dd.sections.technical ++ dd.sections.deep_dives).map (fun c => c.id)
  let row : DigestRow :=
    { date := dd.date
      content_ids := contentIds
      top_signal := dd.topSignal.map (fun t => (t.id, t.title, t.summary))
      sent := false }
  let s1 : DB := { db with digests := db.digests ++ [row] }
  let s2 : DB :=
    { s1 with
      contents := s1.contents.map (fun c =>
        if contentIds.contains c.id then { c with included_in_digest := true } else c) }
  (s2, [s1, s2])

/-! ## Scheduler (src/scheduler/jobs.py) -/

/-- One scheduler job wrapper (`collect_rss_job` etc., lines 25-58): run the
underlying stage, catch any error it raises and log it, never re-raise.  The
stage is an arbitrary state transformer that may fail; the wrapper records
the stage's name in the execution log whether it succeeded or failed. -/
def runJob (name : String) (stage : σ → Except ε σ) :
    σ × List String → σ × List String :=
  fun st =>
    match stage st.1 with
    | .ok s' => (s', st.2 ++ [name])
    | .error _ => (st.1, st.2 ++ [name])

/-- Model of `DigestScheduler.run_full_pipeline` (lines 132-139): the five wrapped
jobs in sequence. -/
def runFullPipeline (rss yt proc gen send : σ → Except ε σ) (s : σ) :
    σ × List String :=
  (runJob "send" send
    (runJob "generate" gen
      (runJob "process" proc
        (runJob "youtube" yt
          (runJob "rss" rss (s, []))))))

/-! ## Sample rows and entries used by concrete checks -/

/-- A content row with the fields the digest logic inspects; the remaining
columns take fixed values. -/
def mkSample (i : Nat) (url : String) (date : Int) (proc : Bool)
    (cats : Option (List String)) (rel : Option Int) : Content :=
  { id := i
    source_name := "feed"
    source_url := url
    content_type := ContentType.article
    title := "title"
    author := none
    publish_date := date
    raw_content := none
    transcript := none
    summary := none
    categories := cats
    entities := none
    investmentSignals := rel.map (fun r => ⟨some r⟩)
    duration_seconds := none
    processed := proc
    included_in_digest := false }

/-- An entry carrying an `audio/`-typed enclosure but no links at all. -/
def encEntry : Entry :=
  { link := "http://example.com/ep1"
    title := none
    author := none
    publishDate := 0
    body := none
    enclosures := [{ type := "audio/mpeg", href := "http://example.com/ep1.mp3" }]
    links := [] }

/-- A feed entry with link `http://u`. -/
def entryU : Entry :=
  { link := "http://u", title := some "a", author := none, publishDate := 10
    body := none, enclosures := [], links := [] }

/-- A feed entry with link `http://v`. -/
def entryV : Entry :=
  { link := "http://v", title := some "b", author := none, publishDate := 20
    body := none, enclosures := [], links := [] }

/-- An item whose categories intersect both the investment and the market
category sets. -/
def c3Item : Content := mkSample 1 "http://u" 0 true (some ["funding", "trend"]) (some 5)

/-- A processed item whose publish time lies one hour in the future of the
generation instant 1000000. -/
def futureItem : Content := mkSample 1 "http://u" 1003600 true none none

/-- A processed funding item inside the 24-hour window before 1000000. -/
def c2Item : Content := mkSample 1 "http://u" 999900 true (some ["funding"]) none

/-- A row used by the enrichment witnesses. -/
def c10Row : Content := mkSample 3 "http://w" 50 false none none

/-- A concrete well-shaped enrichment result. -/
def sampleResult : EnrichResult :=
  { summary := some (Sum.inl "short summary")
    categories := some ["funding"]
    entities := some [("companies", JVal.str "Acme")]
    keyTimestamps := none
    contentTypeTag := none
    investmentSignals := some ⟨some 8⟩ }

/-- High-relevance items with distinct publish times, most recent first. -/
def topA : Content := mkSample 1 "http://a" 200 true none (some 9)

def topB : Content := mkSample 2 "http://b" 100 true none (some 9)

def topC : Content := mkSample 3 "http://c" 50 true none (some 7)

/-! ## Claim theorems -/

/-- The wrapped scheduler job always records its stage in the execution log,
whether the underlying stage succeeded or failed. -/
theorem runJob_snd {σ : Type u} {ε : Type v} (name : String)
    (stage : σ → Except ε σ) (st : σ × List String) :
    (runJob name stage st).2 = st.2 ++ [name] := by
  unfold runJob
  cases stage st.1 <;> rfl

/-- C9: the composite `run_full_pipeline` executes every stage regardless of
the prior stages' success — for arbitrary stage behaviours (each stage an
arbitrary fallible state transformer), all five stages appear in the
execution log in order, and the pipeline itself never propagates an error
(its result type is total). -/
theorem runFullPipeline_runs_all_stages {σ : Type u} {ε : Type v}
    (rss yt proc gen send : σ → Except ε σ) (s : σ) :
    (runFullPipeline rss yt proc gen send s).2 =
      ["rss", "youtube", "process", "generate", "send"] := by
  unfold runFullPipeline
  rw [runJob_snd, runJob_snd, runJob_snd, runJob_snd, runJob_snd]
  rfl

/-- C8: `parse_duration` maps ISO-8601-style duration strings to total
seconds with each missing hours/minutes/seconds component counted as 0 and
unparseable strings (no `PT` prefix) yielding 0: `PT1H30M45S` → 5445,
`PT45M30S` → 2730, `PT10M` → 600, `PT30S` → 30, `PT2H` → 7200,
`invalid` → 0, `""` → 0. -/
theorem parseDuration_spec_values :
    parseDuration "PT1H30M45S" = 5445 ∧
    parseDuration "PT45M30S" = 2730 ∧
    parseDuration "PT10M" = 600 ∧
    parseDuration "PT30S" = 30 ∧
    parseDuration "PT2H" = 7200 ∧
    parseDuration "invalid" = 0 ∧
    parseDuration "" = 0 :=
  ⟨rfl, rfl, rfl, rfl, rfl, rfl, rfl⟩

/-- C10: `process_content` touches only the enrichment fields and the
`processed` flag — positionally, every row of the table keeps its identity
and ingestion fields (`id`, `source_url`, `source_name`, `content_type`,
`title`, `author`, `publish_date`, `raw_content`, `transcript`,
`duration_seconds`) and its `included_in_digest` flag, whatever the decoder,
provider response and target id were. -/
theorem processContent_frame (decode : String → Option EnrichResult)
    (resp : Option String) (db : List Content) (cid : Nat) (i : Nat) (c : Content)
    (hc : db.get? i = some c) :
    ∃ c', (processContent decode resp db cid).2.1.get? i = some c' ∧
      c'.id = c.id ∧ c'.source_url = c.source_url ∧ c'.source_name = c.source_name ∧
      c'.content_type = c.content_type ∧ c'.title = c.title ∧ c'.author = c.author ∧
      c'.publish_date = c.publish_date ∧ c'.raw_content = c.raw_content ∧
      c'.transcript = c.transcript ∧ c'.duration_seconds = c.duration_seconds ∧
      c'.included_in_digest = c.included_in_digest := by
  unfold processContent
  cases hs : summarizeModel decode resp with
  | none =>
    exact ⟨c, hc, rfl, rfl, rfl, rfl, rfl, rfl, rfl, rfl, rfl, rfl, rfl⟩
  | some r =>
    cases hf : db.find? (fun x => x.id == cid) with
    | none =>
      exact ⟨c, hc, rfl, rfl, rfl, rfl, rfl, rfl, rfl, rfl, rfl, rfl, rfl⟩
    | some w =>
      by_cases h : (c.id == cid) = true
      · refine ⟨applyEnrichment c r, ?_, rfl, rfl, rfl, rfl, rfl, rfl, rfl, rfl, rfl, rfl, rfl⟩
        rw [List.get?_map, hc]
        exact congrArg some (if_pos h)
      · refine ⟨c, ?_, rfl, rfl, rfl, rfl, rfl, rfl, rfl, rfl, rfl, rfl, rfl⟩
        rw [List.get?_map, hc]
        exact congrArg some (if_neg h)

/-- Witness for C10 at a concrete table, decoder and response. -/
theorem processContent_frame_witness :
    ([c10Row].get? 0 = some c10Row) ∧
    (∃ c', (processContent (fun _ => some sampleResult) (some "x") [c10Row] 3).2.1.get? 0
          = some c' ∧
      c'.id = c10Row.id ∧ c'.source_url = c10Row.source_url ∧
      c'.source_name = c10Row.source_name ∧ c'.content_type = c10Row.content_type ∧
      c'.title = c10Row.title ∧ c'.author = c10Row.author ∧
      c'.publish_date = c10Row.publish_date ∧ c'.raw_content = c10Row.raw_content ∧
      c'.transcript = c10Row.transcript ∧ c'.duration_seconds = c10Row.duration_seconds ∧
      c'.included_in_digest = c10Row.included_in_digest) :=
  ⟨rfl, processContent_frame (fun _ => some sampleResult) (some "x") [c10Row] 3 0 c10Row rfl⟩

/-- Membership is invariant under `insertDescBy`. -/
theorem mem_insertDescBy {key : α → Int} {x a : α} :
    ∀ {l : List α}, a ∈ insertDescBy key x l ↔ a = x ∨ a ∈ l := by
  intro l
  induction l with
  | nil => simp [insertDescBy]
  | cons y ys ih =>
    unfold insertDescBy
    by_cases h : key y ≤ key x
    · simp [h]
    · simp only [if_neg h, List.mem_cons, ih]
      tauto

/-- Membership is invariant under `sortDescBy`. -/
theorem mem_sortDescBy {key : α → Int} {a : α} :
    ∀ {l : List α}, a ∈ sortDescBy key l ↔ a ∈ l := by
  intro l
  induction l with
  | nil => simp [sortDescBy]
  | cons x xs ih =>
    unfold sortDescBy
    rw [mem_insertDescBy]
    simp [ih]

/-- C7 as amended: `get_recent_content` selects exactly the `processed =
true` items with publish time at least `now - windowHours` — the query
enforces the lower bound of the window but no upper bound. -/
theorem getRecentContent_mem_iff (now : Int) (hours : Nat) (store : List Content)
    (c : Content) :
    c ∈ getRecentContent now hours store ↔
      c ∈ store ∧ c.processed = true ∧ now - hours * 3600 ≤ c.publish_date := by
  unfold getRecentContent
  rw [mem_sortDescBy, List.mem_filter]
  simp only [Bool.and_eq_true, decide_eq_true_eq]
  tauto

/-- C7 as stated is false: a processed item whose publish time lies strictly
after `now` (here one hour in the future) is selected by the window query,
though the claimed closed window `[now - windowHours, now]` excludes it. -/
theorem getRecentContent_future_cex :
    futureItem ∈ getRecentContent 1000000 24 [futureItem] ∧
    1000000 < futureItem.publish_date := by
  constructor
  · have h : getRecentContent 1000000 24 [futureItem] = [futureItem] := rfl
    rw [h]
    exact List.mem_cons_self _ _
  · decide

/-- C6 as stated is false: this entry carries an `audio/`-typed enclosure
and no podcast-name match, yet `determine_content_type` classifies it as an
article — the audio heuristic scans only the entry's `links`, never its
`enclosures`. -/
theorem determineContentType_enclosure_cex :
    encEntry.enclosures.any (fun e => strStartsWith e.type "audio/") = true ∧
    (containsSub (strToLower "Tech News") "podcast" ||
      containsSub (strToLower "Tech News") "20vc" ||
      containsSub (strToLower "Tech News") "a16z") = false ∧
    determineContentType encEntry "Tech News" = ContentType.article := by
  refine ⟨by decide, by decide, by decide⟩

/-- C6 as amended: an entry is classified podcast exactly when the
lowercased feed title contains one of the podcast-name keywords, or some
entry *link* is `audio/`-typed; audio-typed enclosures that are not also
links never make an entry a podcast, and everything else is an article. -/
theorem determineContentType_podcast_iff (e : Entry) (t : String) :
    determineContentType e t = ContentType.podcast ↔
      ((containsSub (strToLower t) "podcast" || containsSub (strToLower t) "20vc" ||
        containsSub (strToLower t) "a16z") = true ∨
       e.links.any (fun l => strStartsWith l.type "audio/") = true) := by
  unfold determineContentType
  by_cases hnm : (containsSub (strToLower t) "podcast" || containsSub (strToLower t) "20vc" ||
      containsSub (strToLower t) "a16z") = true
  · simp [hnm]
  · simp only [hnm, if_false, Bool.false_eq_true]
    by_cases hemp : (!e.enclosures.isEmpty || !e.links.isEmpty) = true
    · simp only [hemp, if_true]
      cases hfind : e.links.find? (fun l => strStartsWith l.type "audio/") with
      | none =>
        rw [List.find?_eq_none] at hfind
        have hany : e.links.any (fun l => strStartsWith l.type "audio/") = false :=
          List.any_eq_false.mpr hfind
        simp [hany]
      | some a =>
        have hmem : a ∈ e.links := List.mem_of_find?_eq_some hfind
        have hp := List.find?_some hfind
        have hany : e.links.any (fun l => strStartsWith l.type "audio/") = true :=
          List.any_eq_true.mpr ⟨a, hmem, hp⟩
        simp [hany]
    · have hl : e.links.isEmpty = true := by
        cases h2 : e.links.isEmpty with
        | true => rfl
        | false => exact absurd (by simp [h2]) hemp
      have hl' : e.links = [] := List.isEmpty_iff.mp hl
      simp only [hemp, if_false]
      simp [hl']

/-- C2 (the code violates the claim): run over a store holding one
processed, in-window funding item.  The committed-state trace of
`create_and_save_digest` has two entries: after the first
`session.commit()` the digest row is persisted while zero items carry
`included_in_digest = true`; only the second commit sets the flag.  The
intermediate state — document saved, flags untouched — is therefore an
observable committed state, contradicting the same-transaction claim. -/
theorem createAndSaveDigest_partial_commit :
    ((createAndSaveDigest 1000000 ⟨[c2Item], []⟩).2.map
      (fun s => (s.digests.length, s.contents.countP (fun c => c.included_in_digest = true))))
      = [(1, 0), (1, 1)] := rfl

/-- The bucketing loop body appends to `market_intelligence` exactly when the
item misses the investment condition and hits a market category. -/
theorem categorizeStep_market (acc : Sections) (c : Content) :
    (categorizeStep acc c).market_intelligence =
      acc.market_intelligence ++
        (if !(catHit c invCats || decide (8 ≤ relevanceOf c)) && catHit c mktCats then
          [c] else []) := by
  unfold categorizeStep
  by_cases h1 : (catHit c invCats || decide (8 ≤ relevanceOf c)) = true
  · simp [h1, apply_ite Sections.market_intelligence]
  · by_cases h2 : catHit c mktCats = true
    · simp [h1, h2, apply_ite Sections.market_intelligence]
    · by_cases h3 : catHit c techCats = true
      · simp [h1, h2, h3, apply_ite Sections.market_intelligence]
      · simp [h1, h2, h3, apply_ite Sections.market_intelligence]

/-- Unrolling the bucketing loop: the market bucket accumulates the filter
of the `elif` condition. -/
theorem foldl_categorizeStep_market (l : List Content) :
    ∀ acc : Sections,
      (l.foldl categorizeStep acc).market_intelligence =
        acc.market_intelligence ++
          l.filter (fun c => !(catHit c invCats || decide (8 ≤ relevanceOf c)) &&
            catHit c mktCats) := by
  induction l with
  | nil => intro acc; simp
  | cons x xs ih =>
    intro acc
    rw [List.foldl_cons, ih, categorizeStep_market, List.filter_cons]
    cases hx : (!(catHit x invCats || decide (8 ≤ relevanceOf x)) && catHit x mktCats) with
    | true => simp [List.append_assoc]
    | false => simp

/-- C3 as amended: the `market_intelligence` bucket holds exactly the first
eight items whose category set meets {trend, regulatory, talent} AND which
do not already qualify for `investment_signals` (no category in {funding,
product_launch, m_and_a} and relevance < 8) — the three category buckets are
mutually exclusive through the loop's `elif` chain, so an
investment-qualifying item never also appears in `market_intelligence`
(multi-bucket membership only happens via `deep_dives`). -/
theorem categorize_market_intelligence_eq (l : List Content) :
    (categorizeContent l).market_intelligence =
      (l.filter (fun c => !(catHit c invCats || decide (8 ≤ relevanceOf c)) &&
        catHit c mktCats)).take 8 := by
  show (List.foldl categorizeStep ⟨[], [], [], []⟩ l).market_intelligence.take 8 = _
  rw [foldl_categorizeStep_market]
  rfl

/-- C3 as stated is false: this item's categories meet the market set
({trend}), yet because it also qualifies for `investment_signals` (category
`funding`), the `elif` chain puts it only in `investment_signals` and the
`market_intelligence` bucket stays empty. -/
theorem categorize_multibucket_cex :
    catHit c3Item mktCats = true ∧
    (categorizeContent [c3Item]).investment_signals = [c3Item] ∧
    (categorizeContent [c3Item]).market_intelligence = [] :=
  ⟨by decide, rfl, rfl⟩

/-- The claim's failure condition — provider call raised, or both the direct
decode and the decode of the bracket-extracted slice fail — makes
`summarize` return no result. -/
theorem summarizeModel_eq_none_of_fail (decode : String → Option EnrichResult)
    (resp : Option String)
    (h : resp = none ∨ ∀ text, resp = some text →
      decode text = none ∧ (bracketExtract text).bind decode = none) :
    summarizeModel decode resp = none := by
  cases hr : resp with
  | none => rfl
  | some text =>
    rcases h with h | h
    · rw [hr] at h
      exact Option.noConfusion h
    · obtain ⟨h1, h2⟩ := h text hr
      simp only [summarizeModel, h1]
      cases hb : bracketExtract text with
      | none => rfl
      | some sub =>
        rw [hb] at h2
        simpa using h2

/-- C4: if the provider call fails or both parse attempts (direct decode,
then the bracket-matching extraction) fail, `process_content` returns
failure with the table untouched and no commit performed; and on a parsed
result, at most one commit happens, and every committed state already
carries all enrichment fields together with `processed = true` on the
target row (the single all-at-once update) — no committed state pairs
`processed = true` with partial or stale enrichment fields. -/
theorem processContent_atomic (decode : String → Option EnrichResult)
    (resp : Option String) (db : List Content) (cid : Nat) :
    ((resp = none ∨ ∀ text, resp = some text →
        decode text = none ∧ (bracketExtract text).bind decode = none) →
      processContent decode resp db cid = (false, db, [])) ∧
    (∀ r, summarizeModel decode resp = some r →
      (processContent decode resp db cid).2.2.length ≤ 1 ∧
      ∀ s ∈ (processContent decode resp db cid).2.2,
        s = db.map (fun c => if c.id == cid then applyEnrichment c r else c)) := by
  constructor
  · intro h
    have hs := summarizeModel_eq_none_of_fail decode resp h
    unfold processContent
    rw [hs]
  · intro r hr
    unfold processContent
    rw [hr]
    cases hf : db.find? (fun c => c.id == cid) with
    | none => exact ⟨by simp, by simp⟩
    | some w =>
      refine ⟨by simp, ?_⟩
      intro s hsmem
      simpa using hsmem

/-- Witness for C4: a decoder that always fails on a bracketless response
(failure branch), and a decoder that succeeds (single-commit branch). -/
theorem processContent_atomic_witness :
    processContent (fun _ => none) (some "nojson") [c10Row] 3 = (false, [c10Row], []) ∧
    (processContent (fun _ => some sampleResult) (some "x") [c10Row] 3).2.2.length ≤ 1 :=
  ⟨(processContent_atomic (fun _ => none) (some "nojson") [c10Row] 3).1
      (Or.inr (fun text ht => by
        injection ht with h
        subst h
        exact ⟨rfl, rfl⟩)),
    ((processContent_atomic (fun _ => some sampleResult) (some "x") [c10Row] 3).2
      sampleResult rfl).1⟩

/-- Rows pending in the session never duplicate a URL already committed in
the store: the per-entry pre-check query filters those out. -/
theorem feedPending_not_clash (name title : String) (entries : List Entry)
    (store : List Content) :
    ∀ p ∈ feedPending name title entries store,
      store.any (fun c => c.source_url == p.source_url) = false := by
  unfold feedPending
  suffices h : ∀ acc : List Content,
      (∀ p ∈ acc, store.any (fun c => c.source_url == p.source_url) = false) →
      ∀ p ∈ entries.foldl
        (fun acc e =>
          if e.link = "" then acc
          else if store.any (fun c => c.source_url == e.link) then acc
          else acc ++ [entryToContent name title e]) acc,
        store.any (fun c => c.source_url == p.source_url) = false by
    exact h [] (by simp)
  induction entries with
  | nil => intro acc hacc p hp; exact hacc p hp
  | cons e es ih =>
    intro acc hacc
    rw [List.foldl_cons]
    apply ih
    by_cases h1 : e.link = ""
    · rw [if_pos h1]; exact hacc
    · rw [if_neg h1]
      by_cases h2 : store.any (fun c => c.source_url == e.link) = true
      · rw [if_pos h2]; exact hacc
      · rw [if_neg h2]
        intro p hp
        rcases List.mem_append.mp hp with hp | hp
        · exact hacc p hp
        · have hpe : p = entryToContent name title e := List.mem_singleton.mp hp
          subst hpe
          exact Bool.eq_false_iff.mpr (fun hc => h2 hc)

/-- URL column of a flushed batch is unchanged by id assignment. -/
theorem assignIds_map_url (store pending : List Content) :
    (assignIds store pending).map (fun c => c.source_url) =
      pending.map (fun c => c.source_url) := by
  unfold assignIds
  rw [List.map_map]
  have h : ((fun c : Content => c.source_url) ∘ fun p : Nat × Content =>
      { p.2 with id := store.length + 1 + p.1 }) =
      (fun c : Content => c.source_url) ∘ Prod.snd := rfl
  rw [h, ← List.map_map, List.enum_map_snd]

/-- C1 as stated is false: a uniqueness violation that actually reaches the
insert is raised, not treated as a success no-op.  With an empty store and a
feed whose batch carries the same link twice, the pre-check (which, under
`autoflush=False`, cannot see the first row still pending in the session)
passes both rows, and the commit's unique-index violation aborts the whole
collection run as an error. -/
theorem collectFromFeed_integrity_cex :
    collectFromFeed "feed" "title" [entryU, entryU] [] =
      Except.error DBError.integrity := rfl

/-- C1 as amended: a candidate whose URL already sits committed in the store
is skipped by the pre-check, so the run inserts nothing for it: provided the
batch itself has no duplicate URLs, collection succeeds and exactly one row
for that URL remains (the parenthetical of the original claim fails — see
the counterexample — because an insert-time violation aborts the run). -/
theorem collectFromFeed_skips_existing (name title : String) (entries : List Entry)
    (store : List Content) (u : String)
    (h1 : store.countP (fun c => c.source_url == u) = 1)
    (h2 : ((feedPending name title entries store).map (fun c => c.source_url)).Nodup) :
    ∃ store' collected,
      collectFromFeed name title entries store = .ok (store', collected) ∧
      store'.countP (fun c => c.source_url == u) = 1 ∧
      ∀ p ∈ collected, ¬(p.source_url == u) = true := by
  have hnc := feedPending_not_clash name title entries store
  have hclash : (feedPending name title entries store).any
      (fun p => store.any (fun c => c.source_url == p.source_url)) = false :=
    List.any_eq_false.mpr (fun p hpmem => by rw [hnc p hpmem]; simp)
  have hpu : ∀ p ∈ feedPending name title entries store, ¬(p.source_url == u) = true := by
    intro p hpmem hbeq
    have hpos : 0 < store.countP (fun c => c.source_url == u) := by
      rw [h1]; exact Nat.zero_lt_one
    obtain ⟨c, hc, hcu⟩ := List.countP_pos.mp hpos
    have hcp : (c.source_url == p.source_url) = true := by
      have e1 : c.source_url = u := by simpa using hcu
      have e2 : p.source_url = u := by simpa using hbeq
      rw [e1, e2]
      exact beq_self_eq_true u
    have hfalse := hnc p hpmem
    rw [List.any_eq_false] at hfalse
    exact hfalse c hc hcp
  refine ⟨store ++ assignIds store (feedPending name title entries store),
    feedPending name title entries store, ?_, ?_, hpu⟩
  · unfold collectFromFeed commitInsert
    simp only [hclash, Bool.false_eq_true, if_false, if_pos h2]
  · rw [List.countP_append]
    have hmap1 : (assignIds store (feedPending name title entries store)).countP
        (fun c => c.source_url == u) =
        ((assignIds store (feedPending name title entries store)).map
          (fun c => c.source_url)).countP (fun s => s == u) := by
      rw [List.countP_map]
      rfl
    have hmap2 : ((feedPending name title entries store).map
          (fun c => c.source_url)).countP (fun s => s == u) =
        (feedPending name title entries store).countP (fun c => c.source_url == u) := by
      rw [List.countP_map]
      rfl
    have hz : (assignIds store (feedPending name title entries store)).countP
        (fun c => c.source_url == u) = 0 := by
      rw [hmap1, assignIds_map_url, hmap2, List.countP_eq_zero]
      exact hpu
    rw [hz, h1]

/-- Witness for C1's amended theorem: a store holding `http://u`, a feed
offering `http://u` (skipped) and `http://v` (inserted). -/
theorem collectFromFeed_skips_existing_witness :
    (([mkSample 1 "http://u" 0 false none none].countP
        (fun c => c.source_url == "http://u") = 1) ∧
      ((feedPending "feed" "title" [entryU, entryV]
          [mkSample 1 "http://u" 0 false none none]).map
        (fun c => c.source_url)).Nodup) ∧
    (∃ store' collected,
      collectFromFeed "feed" "title" [entryU, entryV]
          [mkSample 1 "http://u" 0 false none none] = .ok (store', collected) ∧
      store'.countP (fun c => c.source_url == "http://u") = 1 ∧
      ∀ p ∈ collected, ¬(p.source_url == "http://u") = true) :=
  ⟨⟨by decide, by decide⟩,
    collectFromFeed_skips_existing "feed" "title" [entryU, entryV]
      [mkSample 1 "http://u" 0 false none none] "http://u" (by decide) (by decide)⟩

/-- The head of the stable descending sort is the first element of the
original list attaining the maximum key: the list splits around it with all
earlier elements strictly smaller and all later elements no larger. -/
theorem sortDescBy_head_decomp (key : α → Int) :
    ∀ l : List α, l ≠ [] →
      ∃ t l₁ l₂, (sortDescBy key l).head? = some t ∧ l = l₁ ++ t :: l₂ ∧
        (∀ y ∈ l₁, key y < key t) ∧ (∀ y ∈ l₂, key y ≤ key t) := by
  intro l
  induction l with
  | nil => intro h; exact absurd rfl h
  | cons x xs ih =>
    intro _
    by_cases hxs : xs = []
    · subst hxs
      exact ⟨x, [], [], rfl, rfl, by simp, by simp⟩
    · obtain ⟨t, l₁, l₂, hhead, hdecomp, hl₁, hl₂⟩ := ih hxs
      cases hs : sortDescBy key xs with
      | nil => rw [hs] at hhead; exact Option.noConfusion hhead
      | cons m rest =>
        rw [hs] at hhead
        have hmt : m = t := Option.some.inj hhead
        subst hmt
        by_cases hle : key m ≤ key x
        · refine ⟨x, [], xs, ?_, rfl, by simp, ?_⟩
          · show (insertDescBy key x (sortDescBy key xs)).head? = some x
            rw [hs]
            unfold insertDescBy
            rw [if_pos hle]
            rfl
          · intro y hy
            rw [hdecomp] at hy
            rcases List.mem_append.mp hy with hy | hy
            · exact le_of_lt (lt_of_lt_of_le (hl₁ y hy) hle)
            · rcases List.mem_cons.mp hy with hy | hy
              · subst hy; exact hle
              · exact le_trans (hl₂ y hy) hle
        · have hlt : key x < key m := not_le.mp hle
          refine ⟨m, x :: l₁, l₂, ?_, by rw [hdecomp, List.cons_append], ?_, hl₂⟩
          · show (insertDescBy key x (sortDescBy key xs)).head? = some m
            rw [hs]
            unfold insertDescBy
            rw [if_neg hle]
            rfl
          · intro y hy
            rcases List.mem_cons.mp hy with hy | hy
            · subst hy; exact hlt
            · exact hl₁ y hy

/-- The map `filterMap` transports a pairwise relation along the partial map. -/
theorem pairwise_filterMap_of_pairwise {α : Type u} {β : Type v}
    {R : α → α → Prop} {S : β → β → Prop} (f : α → Option β)
    (hf : ∀ a b x y, R a b → f a = some x → f b = some y → S x y) :
    ∀ {l : List α}, l.Pairwise R → (l.filterMap f).Pairwise S := by
  intro l hl
  induction hl with
  | nil => simp
  | @cons a l' ha _ ih =>
    rw [List.filterMap_cons]
    cases hfa : f a with
    | none => exact ih
    | some x =>
      refine List.Pairwise.cons ?_ ih
      intro y hy
      obtain ⟨b, hb, hfb⟩ := List.mem_filterMap.mp hy
      exact hf a b x y (ha b hb) hfa hfb

/-- C5: over a window list ordered by publish time descending (the order
`get_recent_content` hands to `get_top_signal`), the top signal is `none`
exactly when no item has relevance ≥ 7; and when it is some item `t`, then
`t` is a window item with relevance ≥ 7 holding the maximum relevance among
qualifying items, and every item tying `t`'s relevance published no later
than `t` (stable descending sort breaks score ties in favour of the most
recent publish time). -/
theorem getTopSignal_spec (l : List Content)
    (hsorted : l.Pairwise (fun a b => b.publish_date ≤ a.publish_date)) :
    (getTopSignal l = none ↔ ∀ c ∈ l, relevanceOf c < 7) ∧
    (∀ t, getTopSignal l = some t →
      t ∈ l ∧ 7 ≤ relevanceOf t ∧
      (∀ c ∈ l, 7 ≤ relevanceOf c → relevanceOf c ≤ relevanceOf t) ∧
      (∀ c ∈ l, relevanceOf c = relevanceOf t → c.publish_date ≤ t.publish_date)) := by
  have hmem : ∀ (s : Int) (c : Content),
      (s, c) ∈ l.filterMap (fun c =>
        if 7 ≤ relevanceOf c then some (relevanceOf c, c) else none) ↔
      c ∈ l ∧ 7 ≤ relevanceOf c ∧ s = relevanceOf c := by
    intro s c
    rw [List.mem_filterMap]
    constructor
    · rintro ⟨a, ha, hfa⟩
      by_cases h7 : 7 ≤ relevanceOf a
      · rw [if_pos h7] at hfa
        obtain ⟨h1, h2⟩ := Prod.mk.inj (Option.some.inj hfa)
        subst h2
        exact ⟨ha, h7, h1.symm⟩
      · rw [if_neg h7] at hfa
        exact Option.noConfusion hfa
    · rintro ⟨hc, h7, rfl⟩
      exact ⟨c, hc, by rw [if_pos h7]⟩
  have hnil : l.filterMap (fun c =>
      if 7 ≤ relevanceOf c then some (relevanceOf c, c) else none) = [] ↔
      ∀ c ∈ l, relevanceOf c < 7 := by
    rw [List.filterMap_eq_nil]
    constructor
    · intro h c hc
      by_contra h7
      push_neg at h7
      have := h c hc
      rw [if_pos h7] at this
      exact Option.noConfusion this
    · intro h c hc
      rw [if_neg (not_le.mpr (h c hc))]
  have hgts : getTopSignal l =
      match sortDescBy (fun p : Int × Content => p.1)
        (l.filterMap (fun c =>
          if 7 ≤ relevanceOf c then some (relevanceOf c, c) else none)) with
      | [] => none
      | p :: _ => some p.2 := rfl
  rw [hgts]
  cases hsort_eq : sortDescBy (fun p : Int × Content => p.1) (l.filterMap (fun c =>
      if 7 ≤ relevanceOf c then some (relevanceOf c, c) else none)) with
  | nil =>
    have hscored_nil : l.filterMap (fun c =>
        if 7 ≤ relevanceOf c then some (relevanceOf c, c) else none) = [] := by
      by_contra hne
      obtain ⟨t, l₁, l₂, hh, _, _, _⟩ :=
        sortDescBy_head_decomp (fun p : Int × Content => p.1) _ hne
      rw [hsort_eq] at hh
      exact Option.noConfusion hh
    constructor
    · constructor
      · intro _
        exact hnil.mp hscored_nil
      · intro _
        rfl
    · intro t ht
      exact Option.noConfusion ht
  | cons p rest =>
    have hne : l.filterMap (fun c =>
        if 7 ≤ relevanceOf c then some (relevanceOf c, c) else none) ≠ [] := by
      intro h
      rw [h] at hsort_eq
      exact List.noConfusion hsort_eq
    obtain ⟨t, l₁, l₂, hh, hdecomp, hl₁, hl₂⟩ :=
      sortDescBy_head_decomp (fun p : Int × Content => p.1) _ hne
    rw [hsort_eq] at hh
    have hpt : p = t := Option.some.inj hh
    subst hpt
    have htmem : p ∈ l.filterMap (fun c =>
        if 7 ≤ relevanceOf c then some (relevanceOf c, c) else none) := by
      rw [hdecomp]
      exact List.mem_append.mpr (Or.inr (List.mem_cons_self _ _))
    obtain ⟨hcl, h7, hs1⟩ := (hmem p.1 p.2).mp (by rwa [Prod.mk.eta])
    constructor
    · constructor
      · intro habs
        exact Option.noConfusion habs
      · intro hall
        exact absurd h7 (not_le.mpr (hall p.2 hcl))
    · intro t' ht'
      have ht'2 : p.2 = t' := Option.some.inj ht'
      subst ht'2
      refine ⟨hcl, h7, ?_, ?_⟩
      · intro c hc h7c
        have hcs := (hmem (relevanceOf c) c).mpr ⟨hc, h7c, rfl⟩
        rw [hdecomp] at hcs
        rcases List.mem_append.mp hcs with h | h
        · have := hl₁ _ h
          rw [hs1] at this
          exact le_of_lt this
        · rcases List.mem_cons.mp h with h | h
          · have : relevanceOf c = p.1 := congrArg Prod.fst h
            rw [this, hs1]
          · have := hl₂ _ h
            rw [hs1] at this
            exact this
      · intro c hc hceq
        have h7c : 7 ≤ relevanceOf c := hceq ▸ h7
        have hcs := (hmem (relevanceOf c) c).mpr ⟨hc, h7c, rfl⟩
        rw [hdecomp] at hcs
        rcases List.mem_append.mp hcs with h | h
        · have hlt := hl₁ _ h
          rw [hs1] at hlt
          exact absurd hceq (ne_of_lt hlt)
        · rcases List.mem_cons.mp h with h | h
          · have : c = p.2 := congrArg Prod.snd h
            rw [this]
          · have hpws : (l.filterMap (fun c =>
                if 7 ≤ relevanceOf c then some (relevanceOf c, c) else none)).Pairwise
                (fun p q : Int × Content => q.2.publish_date ≤ p.2.publish_date) := by
              apply pairwise_filterMap_of_pairwise _ _ hsorted
              intro a b x y hR hfa hfb
              by_cases h7a : 7 ≤ relevanceOf a
              · by_cases h7b : 7 ≤ relevanceOf b
                · rw [if_pos h7a] at hfa
                  rw [if_pos h7b] at hfb
                  have hxa : x.2 = a := congrArg Prod.snd (Option.some.inj hfa).symm
                  have hyb : y.2 = b := congrArg Prod.snd (Option.some.inj hfb).symm
                  rw [hxa, hyb]
                  exact hR
                · rw [if_neg h7b] at hfb
                  exact Option.noConfusion hfb
              · rw [if_neg h7a] at hfa
                exact Option.noConfusion hfa
            rw [hdecomp] at hpws
            have hmid := (List.pairwise_append.mp hpws).2.1
            exact (List.pairwise_cons.mp hmid).1 _ h

/-- Witness for C5 on a concrete descending-ordered window with a score tie:
the hypotheses hold and the theorem applies. -/
theorem getTopSignal_spec_witness :
    ([topA, topB, topC].Pairwise (fun a b => b.publish_date ≤ a.publish_date)) ∧
    (getTopSignal [topA, topB, topC] = none ↔
      ∀ c ∈ [topA, topB, topC], relevanceOf c < 7) :=
  ⟨by decide, (getTopSignal_spec [topA, topB, topC] (by decide)).1⟩
